import Mathlib

/-!
Verification of the crabpol map-making and instrument-response code.

The definitions below are shallow embeddings of the Python sources:
`MapMaker._bin_tod_ongrid`, `MapMaker._bin_tod_healpix` and
`MapMaker.__init__` from `crabpol/mapmaker.py`, and `chan_to_e` and
`e_to_aeff` from `crabpol/ixpe_instrument.py`.  The TOD assembler
(`gettod.py`) is not among the sources, so it is modelled from the
specification, with the weight-array orientation fixed by its unit tests
in `tests/test_gettod.py` and by how `mapmaker.py` consumes its output.
Numeric samples are embedded as rationals; `scipy.linalg.pinv` is
abstracted as a function parameter.
-/

namespace Crabpol

/-! ## Grid binner: `MapMaker._bin_tod_ongrid`, mapmaker.py lines 123-131.

The Python loop body for output cell `(i, j)` is

    m = np.logical_and(x > xbinning[i], x < xbinning[i + 1])
    yx = y * m
    m = np.logical_and(np.abs(yx) > ybinning[j], yx < ybinning[j + 1])
    PTP = pixweights[:, m] @ pixweights[:, m].T
    mp = pinv(PTP) @ pixweights[:, m] @ signal[m]
    bmap[j, i] = mp
-/

/-- Membership of sample `k` in output cell `(i, j)` exactly as computed by
`_bin_tod_ongrid`: the boolean x-mask is multiplied into `y`, and the second
mask compares the product against the y bin edges with an absolute value on
the lower edge. -/
def gridMask {n : ℕ} (x y : Fin n → ℚ) (xb yb : ℕ → ℚ) (i j : ℕ) (k : Fin n) :
    Bool :=
  let mx : Bool := decide (xb i < x k ∧ x k < xb (i + 1))
  let yx : ℚ := y k * (if mx then 1 else 0)
  decide (yb j < |yx| ∧ yx < yb (j + 1))

/-- The 3×3 matrix `pixweights[:, m] @ pixweights[:, m].T` for cell `(i, j)`. -/
def cellPTP {n : ℕ} (x y : Fin n → ℚ) (pw : Fin 3 → Fin n → ℚ)
    (xb yb : ℕ → ℚ) (i j : ℕ) : Fin 3 → Fin 3 → ℚ :=
  fun a b => ∑ k, if gridMask x y xb yb i j k then pw a k * pw b k else 0

/-- The 3-vector `pixweights[:, m] @ signal[m]` for cell `(i, j)`. -/
def cellWs {n : ℕ} (x y signal : Fin n → ℚ) (pw : Fin 3 → Fin n → ℚ)
    (xb yb : ℕ → ℚ) (i j : ℕ) : Fin 3 → ℚ :=
  fun a => ∑ k, if gridMask x y xb yb i j k then pw a k * signal k else 0

/-- The Stokes triple `pinv(PTP) @ pixweights[:, m] @ signal[m]` stored into
`bmap[j, i]`; the parameter `pinv` abstracts `scipy.linalg.pinv`. -/
def cellEstimate {n : ℕ} (pinv : (Fin 3 → Fin 3 → ℚ) → Fin 3 → Fin 3 → ℚ)
    (x y signal : Fin n → ℚ) (pw : Fin 3 → Fin n → ℚ)
    (xb yb : ℕ → ℚ) (i j : ℕ) : Fin 3 → ℚ :=
  fun a => ∑ b, pinv (cellPTP x y pw xb yb i j) a b *
    cellWs x y signal pw xb yb i j b

/-- The full grid map: `bmap[j, i]` is the Stokes estimate of cell `(i, j)`. -/
def bmapGrid {n : ℕ} (pinv : (Fin 3 → Fin 3 → ℚ) → Fin 3 → Fin 3 → ℚ)
    (x y signal : Fin n → ℚ) (pw : Fin 3 → Fin n → ℚ)
    (xb yb : ℕ → ℚ) (j i : ℕ) : Fin 3 → ℚ :=
  cellEstimate pinv x y signal pw xb yb i j

/-- Cell membership as the specification words it: x in the half-open
interval from `xbinning[i]` to `xbinning[i+1]` and y in the half-open
interval from `ybinning[j]` to `ybinning[j+1]`, lower edge inclusive and
upper edge exclusive on both axes. -/
def specCellMember {n : ℕ} (x y : Fin n → ℚ) (xb yb : ℕ → ℚ) (i j : ℕ)
    (k : Fin n) : Prop :=
  (xb i ≤ x k ∧ x k < xb (i + 1)) ∧ (yb j ≤ y k ∧ y k < yb (j + 1))

instance {n : ℕ} (x y : Fin n → ℚ) (xb yb : ℕ → ℚ) (i j : ℕ) (k : Fin n) :
    Decidable (specCellMember x y xb yb i j k) := by
  unfold specCellMember; infer_instance

/-- The set of samples the code selects for cell `(i, j)`. -/
def cellSet {n : ℕ} (x y : Fin n → ℚ) (xb yb : ℕ → ℚ) (i j : ℕ) :
    Finset (Fin n) :=
  Finset.univ.filter (fun k => gridMask x y xb yb i j k = true)

/-- The normal matrix `W · Wᵀ` written as the specification does, as a sum
over the selected sample set. -/
def specPTP {n : ℕ} (x y : Fin n → ℚ) (pw : Fin 3 → Fin n → ℚ)
    (xb yb : ℕ → ℚ) (i j : ℕ) : Fin 3 → Fin 3 → ℚ :=
  fun a b => ∑ k in cellSet x y xb yb i j, pw a k * pw b k

/-- The vector `W · s` written as the specification does, as a sum over the
selected sample set. -/
def specWs {n : ℕ} (x y signal : Fin n → ℚ) (pw : Fin 3 → Fin n → ℚ)
    (xb yb : ℕ → ℚ) (i j : ℕ) : Fin 3 → ℚ :=
  fun a => ∑ k in cellSet x y xb yb i j, pw a k * signal k

/-- Moore–Penrose pseudo-inverse of a diagonal 3×3 matrix: invert the
non-zero diagonal entries.  On the concrete instances below the matrices
passed to `pinv` are diagonal, so this agrees there with
`scipy.linalg.pinv`. -/
def pinvDiag (M : Fin 3 → Fin 3 → ℚ) : Fin 3 → Fin 3 → ℚ :=
  fun a b => if a = b then (M a b)⁻¹ else 0

/-- Concrete x coordinates of a one-sample TOD used in the closed instances. -/
def xS : Fin 1 → ℚ := fun _ => 1/2

/-- Concrete y coordinates of a one-sample TOD used in the closed instances. -/
def yS : Fin 1 → ℚ := fun _ => -(1/2)

/-- Concrete x bin edges 0, 1, 2, … used in the closed instances. -/
def xbS : ℕ → ℚ := fun i => (i : ℚ)

/-- Concrete y bin edges -1, 0, 1, … used in the closed instances. -/
def ybS : ℕ → ℚ := fun j => (j : ℚ) - 1

/-- Concrete weight matrix (1 in the I row, 0 in Q and U) used in the
closed instances. -/
def pwS : Fin 3 → Fin 1 → ℚ := fun a _ => if a = 0 then 1 else 0

/-! ## Pixelized-sphere binner: `MapMaker._bin_tod_healpix`, mapmaker.py
lines 155-166.

    for isamp in range(nsamp):
        pix = pixels[isamp]
        if pix < 0:
            continue
        for imap in range(nnz):
            bmap[pix, imap] += signal[isamp] * pixweights.T[isamp, imap]
            nmap[pix, imap] += 1

A sample is embedded as `(signal, pixel, weight triple)`, the weight triple
being the row `pixweights.T[isamp]`; the binned map and the hits map are
total functions from pixel index and plane to the accumulated value. -/

/-- Processing of one sample by the `_bin_tod_healpix` loop body: a sample
with negative pixel index is skipped, otherwise its pixel row of the binned
map and of the hits map is updated for all 3 planes. -/
def hpStep (acc : (ℕ → Fin 3 → ℚ) × (ℕ → Fin 3 → ℚ))
    (s : ℚ × ℤ × (Fin 3 → ℚ)) : (ℕ → Fin 3 → ℚ) × (ℕ → Fin 3 → ℚ) :=
  if s.2.1 < 0 then acc
  else
    (fun p i => if p = s.2.1.toNat then acc.1 p i + s.1 * s.2.2 i else acc.1 p i,
     fun p i => if p = s.2.1.toNat then acc.2 p i + 1 else acc.2 p i)

/-- The `_bin_tod_healpix` accumulation: fold the loop body over the samples
in order, starting from the all-zero binned map and hits map. -/
def hpBin (samples : List (ℚ × ℤ × (Fin 3 → ℚ))) :
    (ℕ → Fin 3 → ℚ) × (ℕ → Fin 3 → ℚ) :=
  samples.foldl hpStep (fun _ _ => 0, fun _ _ => 0)

/-- Concrete two-sample TOD (one valid pixel, one negative pixel) used in
the closed instances. -/
def hpSamples : List (ℚ × ℤ × (Fin 3 → ℚ)) :=
  [(2, 5, fun _ => 1), (3, -1, fun _ => 1)]

/-! ## Instrument response lookups: `chan_to_e` and `e_to_aeff`,
ixpe_instrument.py lines 46-58 and 93-106.

Both functions compute bin centers `(lo + hi) / 2` and then, for each
queried value `i` of a (non-empty) batch, run `np.where(key == i)` and
index the value column with the resulting index array, collecting the
value entries at the matching positions — an empty array when nothing
matches.  No exception is raised on a miss. -/

/-- Bin centers `(lo + hi) / 2.0` of a response table. -/
def binCenters (lo hi : List ℚ) : List ℚ :=
  List.zipWith (fun a b => (a + b) / 2) lo hi

/-- Row selection `vals[keys == q]`: the `vals` entries at the positions
where `keys` equals the query, in order. -/
def tableRows (keys vals : List ℚ) (q : ℚ) : List ℚ :=
  (keys.zip vals).filterMap (fun e => if e.1 = q then some e.2 else none)

/-- The `chan_to_e` lookup of ixpe_instrument.py: bin centers from the
`E_MIN` and `E_MAX` columns, one output row per queried channel, each row
the centers at the positions where the `CHANNEL` column equals the query. -/
def chan_to_e (emin emax chan : List ℚ) (channel : List ℚ) : List (List ℚ) :=
  channel.map (tableRows chan (binCenters emin emax))

/-- The `e_to_aeff` lookup of ixpe_instrument.py: keyed on the bin centers
of `ENERG_LO` and `ENERG_HI`, returning `SPECRESP` entries. -/
def e_to_aeff (eLow eHigh aeff : List ℚ) (energy : List ℚ) : List (List ℚ) :=
  energy.map (tableRows (binCenters eLow eHigh) aeff)

/-! ## TOD assembler, modelled from the specification.

`gettod.py` is not among the sources; only its unit tests are.  The
definitions in this section are modelled from specification section 4.1. -/

/-- Raw per-detector columns of a structured FITS record array:
`theta`, `phi`, `qweight`, `uweight`, `signal` (one entry per sample). -/
structure DetectorData where
  theta : List ℚ
  phi : List ℚ
  qweight : List ℚ
  uweight : List ℚ
  signal : List ℚ

/-- The assembled time-ordered-data bundle.  `weights` is a list of rows;
the repository's test `test_tod` checks `tod.weights.shape[1] == 5` for a
5-sample fixture and `MapMaker._bin_tod_healpix` reads
`pixweights.T[isamp, imap]`, so the rows are the three planes and the
columns are the samples. -/
structure TOD where
  signal : List ℚ
  pixels : List ℤ
  weights : List (List ℚ)

/-- Modelled from the spec: `Get_TOD` plain assembly (`gettod.py` is not
among the sources).  For each detector, pointings `(theta, phi)` are
converted to pixel indices under the pixelization `pix`, the weight rows
`[1, qweight, uweight]` are stacked, and signal, pixels and weight rows are
concatenated across detectors. -/
def assemble_tod (pix : ℚ → ℚ → ℤ) (dets : List DetectorData) : TOD where
  signal := (dets.map DetectorData.signal).flatten
  pixels := (dets.map (fun d => (d.theta.zip d.phi).map (fun a => pix a.1 a.2))).flatten
  weights := [(dets.map (fun d => d.qweight.map (fun _ => (1:ℚ)))).flatten,
              (dets.map DetectorData.qweight).flatten,
              (dets.map DetectorData.uweight).flatten]

/-- A structured record array is rectangular: all columns have the length
of the signal column. -/
def Rectangular (d : DetectorData) : Prop :=
  d.theta.length = d.signal.length ∧ d.phi.length = d.signal.length ∧
    d.qweight.length = d.signal.length ∧ d.uweight.length = d.signal.length

/-- Modelled from the spec: colour-correction factor of a detector id from
the calibration table (the `UCxCC` column keyed by `Detector-name`). -/
def ccFactor (table : List (ℕ × ℚ)) (det : ℕ) : Option ℚ :=
  (table.find? (fun e => decide (e.1 = det))).map (fun e => e.2)

/-- Modelled from the spec: the per-detector colour-corrected signals, each
detector's signal scaled by its calibration factor; `none` when a detector
id is absent from the table (CalibrationMissingError). -/
def ccSignals (table : List (ℕ × ℚ)) :
    List (ℕ × DetectorData) → Option (List (List ℚ))
  | [] => some []
  | d :: ds =>
    match ccFactor table d.1, ccSignals table ds with
    | some k, some rest => some ((d.2.signal.map (fun v => v * k)) :: rest)
    | _, _ => none

/-- Modelled from the spec: `Get_TOD` assembly with colour correction —
as the plain assembly, but each detector's signal is scaled by its
calibration-table factor before concatenation. -/
def assemble_tod_withcc (pix : ℚ → ℚ → ℤ) (table : List (ℕ × ℚ))
    (dets : List (ℕ × DetectorData)) : Option TOD :=
  match ccSignals table dets with
  | none => none
  | some sigs =>
    some { signal := sigs.flatten
           pixels := (assemble_tod pix (dets.map (fun d => d.2))).pixels
           weights := (assemble_tod pix (dets.map (fun d => d.2))).weights }

/-- Concrete 5-sample detector mirroring the `make_structured_data(n=5)`
test fixture shape. -/
def det5 : DetectorData :=
  ⟨[1, 2, 3, 4, 5], [1, 2, 3, 4, 5], [1, 1, 1, 1, 1], [1, 1, 1, 1, 1],
    [0, 1, 2, 3, 4]⟩

/-- Concrete 3-sample detector mirroring the `make_structured_data(n=3)`
test fixture shape. -/
def det3 : DetectorData := ⟨[1, 2, 3], [1, 2, 3], [1, 1, 1], [1, 1, 1], [0, 1, 2]⟩

/-- Trivial pixelization placing every pointing in pixel 0, used in the
closed instances. -/
def pix0 : ℚ → ℚ → ℤ := fun _ _ => 0

/-! ## Output map filenames: mapmaker.py lines 106-109 and 144-147. -/

/-- The grid-mode map filename of mapmaker.py lines 106-109: with a split
the format slots give freq, "GHz_", npix, "pix_", split, "_grid.fits";
without one they give freq, "GHz_", npix, "pix_grid.fits". -/
def gridMapname (freq npix : ℕ) (split : Option String) : String :=
  match split with
  | some s => toString freq ++ "GHz_" ++ toString npix ++ "pix_" ++ s ++ "_grid.fits"
  | none => toString freq ++ "GHz_" ++ toString npix ++ "pix_grid.fits"

/-- The healpix-mode map filename of mapmaker.py lines 144-147: with a
split the format slots give freq, "GHz_", nside, "hpbinning_", split,
".fits"; without one they give freq, "GHz_", nside, "hpbinning.fits". -/
def healpixMapname (freq nside : ℕ) (split : Option String) : String :=
  match split with
  | some s => toString freq ++ "GHz_" ++ toString nside ++ "hpbinning_" ++ s ++ ".fits"
  | none => toString freq ++ "GHz_" ++ toString nside ++ "hpbinning.fits"

/-- The filename as the specification words it: a base of frequency,
"GHz_", resolution and mode, the split appended as a trailing underscore
suffix at the end of the name, then the extension. -/
def specMapname (freq res : ℕ) (mode : String) (split : Option String) : String :=
  (match split with
   | some s => toString freq ++ "GHz_" ++ toString res ++ mode ++ "_" ++ s
   | none => toString freq ++ "GHz_" ++ toString res ++ mode) ++ ".fits"

/-! ## Constructor data flow: `MapMaker.__init__`, mapmaker.py lines 33-92. -/

/-- The galactic Tau-A coordinate default of mapmaker.py line 50. -/
def tauAGalactic : List ℚ := [1845574 / 10000, -(57843 / 10000)]

/-- The equatorial Tau-A coordinate default of mapmaker.py line 52. -/
def tauAEquatorial : List ℚ := [8363304 / 100000, 2201449 / 100000]

/-- The LFI default background fluxes of mapmaker.py lines 55-57. -/
def lfiDefaultFbg : List ℚ :=
  [170065975 / 100000000000, 154363888 / 100000000000, 203856413 / 1000000000000]

/-- The HFI default background fluxes of mapmaker.py lines 58-61. -/
def hfiDefaultFbg : List ℚ :=
  [950687754 / 10000000000000, 189320788 / 1000000000000,
    629073416 / 1000000000000, 616040430 / 100000000000]

/-- The `coord` / `f_bg` related state after `MapMaker.__init__`:
the stored attributes, the final values of the two local variables, and
the arguments passed to the internally constructed `Get_TOD`. -/
structure MapMakerState where
  self_coord : Option (List ℚ)
  self_f_bg : Option (List ℚ)
  local_coord : Option (List ℚ)
  local_f_bg : Option (List ℚ)
  loader_coord : Option (List ℚ)
  loader_f_bg : Option (List ℚ)

/-- Shallow embedding of the `coord` / `f_bg` data flow of
`MapMaker.__init__`: the attributes are assigned from the raw arguments
(lines 37 and 40); the Tau-A coordinate defaults (lines 49-52) and the
per-instrument background-flux defaults (lines 53-61) are assigned to the
local variables `coord` and `f_bg` only; the internally constructed
`Get_TOD` receives `self.coord` and `self.f_bg` (lines 82-92). -/
def mapMakerInit (instrument : String) (coord : Option (List ℚ))
    (coord_system : String) (f_bg : Option (List ℚ)) (bg_subtraction : Bool) :
    MapMakerState :=
  let selfCoord := coord
  let selfFbg := f_bg
  let coordLocal := if coord = none ∧ coord_system = "galactic" then some tauAGalactic
    else if coord = none ∧ coord_system = "equatorial" then some tauAEquatorial
    else coord
  let fbgLocal := if bg_subtraction = true ∧ f_bg = none then
      (if instrument = "LFI" then some lfiDefaultFbg
       else if instrument = "HFI" then some hfiDefaultFbg else f_bg)
    else f_bg
  { self_coord := selfCoord, self_f_bg := selfFbg,
    local_coord := coordLocal, local_f_bg := fbgLocal,
    loader_coord := selfCoord, loader_f_bg := selfFbg }

end Crabpol

namespace Crabpol

/-! ## Helper lemmas -/

lemma hpBin_fold_b (samples : List (ℚ × ℤ × (Fin 3 → ℚ))) :
    ∀ (acc : (ℕ → Fin 3 → ℚ) × (ℕ → Fin 3 → ℚ)) (p : ℕ) (i : Fin 3),
      (samples.foldl hpStep acc).1 p i =
        acc.1 p i + ((samples.filter (fun s => decide (s.2.1 = (p:ℤ)))).map
          (fun s => s.1 * s.2.2 i)).sum := by
  induction samples with
  | nil => intro acc p i; simp
  | cons s ss ih =>
    intro acc p i
    rw [List.foldl_cons, ih]
    by_cases hneg : s.2.1 < 0
    · have hne : ¬ (s.2.1 = (p:ℤ)) := by omega
      simp [hpStep, hneg, hne]
    · by_cases heq : s.2.1 = (p:ℤ)
      · have htn : p = s.2.1.toNat := by omega
        have hdec : (decide (s.2.1 = (p:ℤ))) = true := by simp [heq]
        simp [hpStep, hneg, List.filter_cons, hdec, ← htn]
        ring
      · have htn : ¬ (p = s.2.1.toNat) := by omega
        have hdec : (decide (s.2.1 = (p:ℤ))) = false := by simp [heq]
        simp [hpStep, hneg, List.filter_cons, hdec, htn]

lemma hpBin_fold_n (samples : List (ℚ × ℤ × (Fin 3 → ℚ))) :
    ∀ (acc : (ℕ → Fin 3 → ℚ) × (ℕ → Fin 3 → ℚ)) (p : ℕ) (i : Fin 3),
      (samples.foldl hpStep acc).2 p i =
        acc.2 p i + ((samples.filter (fun s => decide (s.2.1 = (p:ℤ)))).length : ℚ) := by
  induction samples with
  | nil => intro acc p i; simp
  | cons s ss ih =>
    intro acc p i
    rw [List.foldl_cons, ih]
    by_cases hneg : s.2.1 < 0
    · have hne : ¬ (s.2.1 = (p:ℤ)) := by omega
      simp [hpStep, hneg, hne]
    · by_cases heq : s.2.1 = (p:ℤ)
      · have htn : p = s.2.1.toNat := by omega
        have hdec : (decide (s.2.1 = (p:ℤ))) = true := by simp [heq]
        simp [hpStep, hneg, List.filter_cons, hdec, ← htn]
        ring
      · have htn : ¬ (p = s.2.1.toNat) := by omega
        have hdec : (decide (s.2.1 = (p:ℤ))) = false := by simp [heq]
        simp [hpStep, hneg, List.filter_cons, hdec, htn]

lemma count_pix_sum (M : ℕ) (samples : List (ℚ × ℤ × (Fin 3 → ℚ)))
    (h : ∀ s ∈ samples, s.2.1 < (M:ℤ)) :
    ∑ p in Finset.range M,
        (samples.filter (fun s => decide (s.2.1 = (p:ℤ)))).length
      = (samples.filter (fun s => decide (0 ≤ s.2.1))).length := by
  induction samples with
  | nil => simp
  | cons s ss ih =>
    have hs : s.2.1 < (M:ℤ) := h s (List.mem_cons_self _ _)
    have hss := ih (fun t ht => h t (List.mem_cons_of_mem _ ht))
    by_cases hpos : 0 ≤ s.2.1
    · have h1 : ∀ p ∈ Finset.range M,
          ((s :: ss).filter (fun t => decide (t.2.1 = (p:ℤ)))).length
            = ((if p = s.2.1.toNat then 1 else 0) +
                (ss.filter (fun t => decide (t.2.1 = (p:ℤ)))).length) := by
        intro p _
        by_cases hp : p = s.2.1.toNat
        · have hq : s.2.1 = (p:ℤ) := by omega
          simp [List.filter_cons, hq]
          omega
        · have hq : ¬ (s.2.1 = (p:ℤ)) := by omega
          simp [List.filter_cons, hq, hp]
      rw [Finset.sum_congr rfl h1, Finset.sum_add_distrib,
        Finset.sum_ite_eq' (Finset.range M) s.2.1.toNat (fun _ => 1),
        if_pos (Finset.mem_range.mpr (by omega)), hss]
      simp [List.filter_cons, hpos, Nat.add_comm]
    · have h1 : ∀ p ∈ Finset.range M,
          ((s :: ss).filter (fun t => decide (t.2.1 = (p:ℤ)))).length
            = (ss.filter (fun t => decide (t.2.1 = (p:ℤ)))).length := by
        intro p _
        have hq : ¬ (s.2.1 = (p:ℤ)) := by omega
        simp [List.filter_cons, hq]
      rw [Finset.sum_congr rfl h1, hss]
      simp [List.filter_cons, hpos]

lemma tableRows_eq_nil_iff (keys vals : List ℚ) (h : keys.length ≤ vals.length)
    (q : ℚ) : tableRows keys vals q = [] ↔ q ∉ keys := by
  induction keys generalizing vals with
  | nil => simp [tableRows]
  | cons k ks ih =>
    cases vals with
    | nil => simp at h
    | cons v vs =>
      simp only [List.length_cons, Nat.add_le_add_iff_right] at h
      unfold tableRows at ih ⊢
      by_cases hk : k = q
      · simp [List.zip_cons_cons, List.filterMap_cons, hk]
      · simp [List.zip_cons_cons, List.filterMap_cons, hk, ih vs h]
        tauto

lemma tableRows_mem (keys vals : List ℚ) :
    ∀ (k : ℕ) (hk : k < keys.length) (hv : k < vals.length),
      vals.get ⟨k, hv⟩ ∈ tableRows keys vals (keys.get ⟨k, hk⟩) := by
  induction keys generalizing vals with
  | nil => intro k hk; simp at hk
  | cons a as ih =>
    intro k hk hv
    cases vals with
    | nil => simp at hv
    | cons v vs =>
      cases k with
      | zero => simp [tableRows, List.zip_cons_cons, List.filterMap_cons]
      | succ m =>
        have hm : m < as.length := by simpa using hk
        have hmv : m < vs.length := by simpa using hv
        have := ih vs m hm hmv
        unfold tableRows at this ⊢
        simp only [List.zip_cons_cons, List.filterMap_cons, List.get_cons_succ]
        by_cases ha : a = as.get ⟨m, hm⟩
        · rw [if_pos ha]
          exact List.mem_cons_of_mem _ this
        · rw [if_neg ha]
          exact this

lemma flatten_length {α : Type} (dets : List DetectorData)
    (f : DetectorData → List α) :
    ((dets.map f).flatten).length = (dets.map (fun d => (f d).length)).sum := by
  rw [List.length_flatten, List.map_map]
  rfl

end Crabpol

namespace Crabpol

/-! ## Claims -/

/-- C1 (counterexample): the sample `(x, y) = (0, 0)` lies in the half-open
cell `[0, 1) × [0, 1)` claimed by the specification, yet the code's
membership test does not select it (both edge comparisons are strict), so
the claimed equivalence between code selection and half-open membership is
false. -/
theorem claim1_counterexample :
    ¬ ((gridMask (fun _ : Fin 1 => (0:ℚ)) (fun _ => 0) (fun i => (i:ℚ))
        (fun j => (j:ℚ)) 0 0 0 = true) ↔
      specCellMember (fun _ : Fin 1 => (0:ℚ)) (fun _ => 0) (fun i => (i:ℚ))
        (fun j => (j:ℚ)) 0 0 0) := by
  norm_num [gridMask, specCellMember]

/-- C1 (amended): a sample is selected into cell `(i, j)` exactly when
either its x lies strictly between the two x bin edges, its `|y|` strictly
exceeds the lower y edge and its y is strictly below the upper y edge; or
its x is not strictly inside the x interval and the cell's y interval
strictly straddles 0 (the x-mask is applied by multiplication, so
masked-out samples reappear as `y = 0`). -/
theorem claim1_theorem {n : ℕ} (x y : Fin n → ℚ) (xb yb : ℕ → ℚ)
    (i j : ℕ) (k : Fin n) :
    gridMask x y xb yb i j k = true ↔
      ((xb i < x k ∧ x k < xb (i + 1)) ∧ yb j < |y k| ∧ y k < yb (j + 1)) ∨
        (¬ (xb i < x k ∧ x k < xb (i + 1)) ∧ yb j < 0 ∧ (0:ℚ) < yb (j + 1)) := by
  unfold gridMask
  by_cases h : xb i < x k ∧ x k < xb (i + 1) <;> simp [h]

/-- C2: each cell of the grid map receives `pinv(W·Wᵀ)·W·s` over its
selected sample set, and a cell whose selected sample set is empty receives
the all-zero Stokes triple (for the code's `pinv` argument this holds for
any function, because `W·s` is already the zero vector there). -/
theorem claim2_theorem {n : ℕ}
    (pinv : (Fin 3 → Fin 3 → ℚ) → Fin 3 → Fin 3 → ℚ)
    (x y signal : Fin n → ℚ) (pw : Fin 3 → Fin n → ℚ) (xb yb : ℕ → ℚ)
    (i j : ℕ) :
    ((∃ k, gridMask x y xb yb i j k = true) →
      bmapGrid pinv x y signal pw xb yb j i =
        fun a => ∑ b, pinv (specPTP x y pw xb yb i j) a b *
          specWs x y signal pw xb yb i j b) ∧
    ((∀ k, gridMask x y xb yb i j k = false) →
      bmapGrid pinv x y signal pw xb yb j i = fun _ => 0) := by
  constructor
  · intro _
    have hPTP : cellPTP x y pw xb yb i j = specPTP x y pw xb yb i j := by
      funext a b
      unfold cellPTP specPTP cellSet
      rw [Finset.sum_filter]
    have hWs : cellWs x y signal pw xb yb i j = specWs x y signal pw xb yb i j := by
      funext a
      unfold cellWs specWs cellSet
      rw [Finset.sum_filter]
    funext a
    unfold bmapGrid cellEstimate
    rw [hPTP, hWs]
  · intro h
    funext a
    unfold bmapGrid cellEstimate cellWs
    simp [h]

/-- C2 (witness): on the concrete one-sample TOD, cell `(0, 0)` is
non-empty and receives the normal-equations estimate, while cell `(1, 0)`
is empty and receives the zero triple. -/
theorem claim2_witness :
    (bmapGrid pinvDiag xS yS (fun _ => 1) pwS xbS ybS 0 0 =
      fun a => ∑ b, pinvDiag (specPTP xS yS pwS xbS ybS 0 0) a b *
        specWs xS yS (fun _ => 1) pwS xbS ybS 0 0 b) ∧
    (bmapGrid pinvDiag xS yS (fun _ => 1) pwS xbS ybS 0 1 = fun _ => 0) :=
  ⟨(claim2_theorem pinvDiag xS yS (fun _ => 1) pwS xbS ybS 0 0).1
      ⟨0, by norm_num [gridMask, xS, yS, xbS, ybS, abs_of_pos, abs_of_neg]⟩,
   (claim2_theorem pinvDiag xS yS (fun _ => 1) pwS xbS ybS 1 0).2
      (fun k => by norm_num [gridMask, xS, yS, xbS, ybS, abs_of_pos, abs_of_neg])⟩

/-- C3: in the pixelized-sphere binner a sample with negative pixel index
leaves both maps unchanged; the binned map at pixel `p` and plane `i` is
the sum of `signal · weight[i]` over the samples with pixel index `p`, and
the hits map there counts those samples; and summing the hits map over all
pixels below any bound `M` covering the pixel indices and over the 3 planes
gives 3 times the number of samples with non-negative pixel index. -/
theorem claim3_theorem (samples : List (ℚ × ℤ × (Fin 3 → ℚ))) :
    (∀ acc s, s.2.1 < 0 → hpStep acc s = acc) ∧
    (∀ (p : ℕ) (i : Fin 3),
      (hpBin samples).1 p i =
        ((samples.filter (fun s => decide (s.2.1 = (p:ℤ)))).map
          (fun s => s.1 * s.2.2 i)).sum ∧
      (hpBin samples).2 p i =
        ((samples.filter (fun s => decide (s.2.1 = (p:ℤ)))).length : ℚ)) ∧
    (∀ M : ℕ, (∀ s ∈ samples, s.2.1 < (M:ℤ)) →
      ∑ p in Finset.range M, ∑ i : Fin 3, (hpBin samples).2 p i =
        3 * ((samples.filter (fun s => decide (0 ≤ s.2.1))).length : ℚ)) := by
  refine ⟨fun acc s hs => by unfold hpStep; rw [if_pos hs],
    fun p i => ?_, fun M hM => ?_⟩
  · constructor
    · rw [hpBin, hpBin_fold_b]; simp
    · rw [hpBin, hpBin_fold_n]; simp
  · calc ∑ p in Finset.range M, ∑ i : Fin 3, (hpBin samples).2 p i
        = ∑ p in Finset.range M,
            (3 : ℚ) * ((samples.filter (fun s => decide (s.2.1 = (p:ℤ)))).length : ℚ) := by
          refine Finset.sum_congr rfl (fun p _ => ?_)
          have hn : ∀ i : Fin 3, (hpBin samples).2 p i =
              ((samples.filter (fun s => decide (s.2.1 = (p:ℤ)))).length : ℚ) := by
            intro i; rw [hpBin, hpBin_fold_n]; simp
          rw [Fin.sum_univ_three, hn 0, hn 1, hn 2]
          ring
      _ = (3 : ℚ) * ∑ p in Finset.range M,
            ((samples.filter (fun s => decide (s.2.1 = (p:ℤ)))).length : ℚ) :=
          (Finset.mul_sum _ _ _).symm
      _ = 3 * ((samples.filter (fun s => decide (0 ≤ s.2.1))).length : ℚ) := by
          rw [← Nat.cast_sum, count_pix_sum M samples hM]

/-- C3 (witness): on the concrete two-sample TOD (pixels 5 and -1, so all
pixel indices are below 12 = 12·nside² for nside = 1), the hits-map total
is 3 times the number of samples with non-negative pixel index. -/
theorem claim3_witness :
    ∑ p in Finset.range 12, ∑ i : Fin 3, (hpBin hpSamples).2 p i =
      3 * ((hpSamples.filter (fun s => decide (0 ≤ s.2.1))).length : ℚ) :=
  (claim3_theorem hpSamples).2.2 12 (by decide)

end Crabpol

namespace Crabpol

/-- C4 (counterexample): with channels and bin centers `[1, 2, 3]`, the
query `5/2` matches no table entry, and both lookups return a value — a
list holding one empty row — rather than failing with an error, contrary
to the claimed `ChannelNotFoundError`. -/
theorem claim4_counterexample :
    (5/2 : ℚ) ∉ (([1, 2, 3] : List ℚ)) ∧
    chan_to_e [1, 2, 3] [1, 2, 3] [1, 2, 3] [5/2] = [[]] ∧
    e_to_aeff [1, 2, 3] [1, 2, 3] [7, 8, 9] [5/2] = [[]] := by
  refine ⟨by norm_num, ?_, ?_⟩ <;>
    norm_num [chan_to_e, e_to_aeff, tableRows, binCenters]

/-- C4 (amended): for rectangular tables, both lookups return one row per
queried value (so batched inputs report every miss); a row is empty exactly
when the queried value matches no table key (no interpolation and no
error); and a query equal to the key of table row `k` returns a row
containing that row's value. -/
theorem claim4_theorem (emin emax chan channel eLow eHigh aeff energy : List ℚ)
    (h1 : emax.length = emin.length) (h2 : chan.length = emin.length)
    (h3 : eHigh.length = eLow.length) (h4 : aeff.length = eLow.length) :
    ((chan_to_e emin emax chan channel).length = channel.length ∧
      (e_to_aeff eLow eHigh aeff energy).length = energy.length) ∧
    (∀ q, tableRows chan (binCenters emin emax) q = [] ↔ q ∉ chan) ∧
    (∀ q, tableRows (binCenters eLow eHigh) aeff q = [] ↔
      q ∉ binCenters eLow eHigh) ∧
    (∀ (k : ℕ) (hk : k < chan.length) (hv : k < (binCenters emin emax).length),
      (binCenters emin emax).get ⟨k, hv⟩ ∈
        tableRows chan (binCenters emin emax) (chan.get ⟨k, hk⟩)) ∧
    (∀ (k : ℕ) (hk : k < (binCenters eLow eHigh).length) (hv : k < aeff.length),
      aeff.get ⟨k, hv⟩ ∈
        tableRows (binCenters eLow eHigh) aeff
          ((binCenters eLow eHigh).get ⟨k, hk⟩)) := by
  refine ⟨⟨List.length_map _ _, List.length_map _ _⟩, ?_, ?_,
    tableRows_mem _ _, tableRows_mem _ _⟩
  · intro q
    refine tableRows_eq_nil_iff _ _ ?_ q
    simp [binCenters, h1, h2]
  · intro q
    refine tableRows_eq_nil_iff _ _ ?_ q
    simp [binCenters, h3, h4]

/-- C4 (witness): on the concrete table with channels `[1, 2, 3]`, a
two-query batch returns two rows, and the row for the query `5/2` is empty
exactly because `5/2` is not a channel. -/
theorem claim4_witness :
    (chan_to_e [1, 2, 3] [1, 2, 3] [1, 2, 3] [5/2, 2]).length =
      ([5/2, 2] : List ℚ).length ∧
    (tableRows ([1, 2, 3] : List ℚ) (binCenters [1, 2, 3] [1, 2, 3]) (5/2) = [] ↔
      (5/2 : ℚ) ∉ (([1, 2, 3] : List ℚ))) :=
  ⟨(claim4_theorem [1, 2, 3] [1, 2, 3] [1, 2, 3] [5/2, 2] [1, 2, 3] [1, 2, 3]
      [7, 8, 9] [2] rfl rfl rfl rfl).1.1,
   (claim4_theorem [1, 2, 3] [1, 2, 3] [1, 2, 3] [5/2, 2] [1, 2, 3] [1, 2, 3]
      [7, 8, 9] [2] rfl rfl rfl rfl).2.1 (5/2)⟩

/-- C5: an empty TOD produces all-zero outputs and no error in both
binning strategies: every cell of the grid map is the zero triple (for any
`pinv`), and the pixelized-sphere binned map and hits map are zero at
every pixel and plane.  (The grid binner produces no hits map.) -/
theorem claim5_theorem (pinv : (Fin 3 → Fin 3 → ℚ) → Fin 3 → Fin 3 → ℚ)
    (x y signal : Fin 0 → ℚ) (pw : Fin 3 → Fin 0 → ℚ) (xb yb : ℕ → ℚ)
    (i j p : ℕ) (im : Fin 3) :
    bmapGrid pinv x y signal pw xb yb j i = (fun _ => 0) ∧
    (hpBin []).1 p im = 0 ∧ (hpBin []).2 p im = 0 := by
  refine ⟨?_, rfl, rfl⟩
  funext a
  unfold bmapGrid cellEstimate cellWs
  simp

/-- C6 (counterexample): the one-sample TOD at `(x, y) = (1/2, -1/2)` lies
(in the specification's half-open sense) only in cell `(0, 0)`, yet
changing its signal from 0 to 1 changes the estimate of the different cell
`(0, 1)` as well — the `|yx|` comparison selects the sample into every
cell of its column whose y interval it straddles — so a signal change is
not confined to the single containing cell. -/
theorem claim6_counterexample :
    ¬ specCellMember xS yS xbS ybS 0 1 0 ∧
    specCellMember xS yS xbS ybS 0 0 0 ∧
    bmapGrid pinvDiag xS yS (fun _ => 0) pwS xbS ybS 1 0 0 ≠
      bmapGrid pinvDiag xS yS (fun _ => 1) pwS xbS ybS 1 0 0 := by
  refine ⟨?_, ?_, ?_⟩
  · norm_num [specCellMember, xS, yS, xbS, ybS]
  · norm_num [specCellMember, xS, yS, xbS, ybS]
  · norm_num [bmapGrid, cellEstimate, cellPTP, cellWs, gridMask, pinvDiag,
      pwS, xS, yS, xbS, ybS, abs_of_pos, abs_of_neg, Fin.sum_univ_three]

/-- C6 (amended): changing one sample's signal leaves unchanged the
estimate of every cell whose membership mask does not select that sample
(the mask depends only on the coordinates); since the mask can select a
sample into several cells, more than one cell may change. -/
theorem claim6_theorem {n : ℕ}
    (pinv : (Fin 3 → Fin 3 → ℚ) → Fin 3 → Fin 3 → ℚ)
    (x y s t' : Fin n → ℚ) (pw : Fin 3 → Fin n → ℚ) (xb yb : ℕ → ℚ)
    (i j : ℕ) (t : Fin n) (hdiff : ∀ k, k ≠ t → s k = t' k)
    (ht : gridMask x y xb yb i j t = false) :
    bmapGrid pinv x y s pw xb yb j i = bmapGrid pinv x y t' pw xb yb j i := by
  have hWs : cellWs x y s pw xb yb i j = cellWs x y t' pw xb yb i j := by
    funext a
    unfold cellWs
    refine Finset.sum_congr rfl (fun k _ => ?_)
    by_cases hk : k = t
    · subst hk; simp [ht]
    · rw [hdiff k hk]
  unfold bmapGrid cellEstimate
  rw [hWs]

/-- C6 (witness): cell `(1, 0)` does not select the single sample of the
concrete TOD, so its estimate is unchanged when that sample's signal
changes from 0 to 1. -/
theorem claim6_witness :
    bmapGrid pinvDiag xS yS (fun _ => 0) pwS xbS ybS 0 1 =
      bmapGrid pinvDiag xS yS (fun _ => 1) pwS xbS ybS 0 1 :=
  claim6_theorem pinvDiag xS yS (fun _ => 0) (fun _ => 1) pwS xbS ybS 1 0 0
    (fun k hk => absurd (Subsingleton.elim k 0) hk)
    (by norm_num [gridMask, xS, yS, xbS, ybS])

end Crabpol

namespace Crabpol

/-- C7 (counterexample): on the 5-sample single-detector fixture the
assembled TOD has 5 signal entries and 5 pixel entries but 3 weight rows
(`weights.shape[0] = 3`), so `weights.shape[0]` is not the sample count —
the repository's own test checks `weights.shape[1] == 5`. -/
theorem claim7_counterexample :
    (assemble_tod pix0 [det5]).signal.length = 5 ∧
    (assemble_tod pix0 [det5]).pixels.length = 5 ∧
    (assemble_tod pix0 [det5]).weights.length = 3 ∧
    (assemble_tod pix0 [det5]).signal.length ≠
      (assemble_tod pix0 [det5]).weights.length := by
  refine ⟨rfl, rfl, rfl, by norm_num [assemble_tod, det5]⟩

/-- C7 (amended): for rectangular per-detector data, the assembled TOD is
sample-aligned with the weights stored as 3 rows of sample length:
`signal.length = pixels.length`, `weights.shape[0] = 3`, and every weight
row has `signal.length` entries (`weights.shape[1]` is the sample count). -/
theorem claim7_theorem (pix : ℚ → ℚ → ℤ) (dets : List DetectorData)
    (h : ∀ d ∈ dets, Rectangular d) :
    (assemble_tod pix dets).signal.length = (assemble_tod pix dets).pixels.length ∧
    (assemble_tod pix dets).weights.length = 3 ∧
    ∀ row ∈ (assemble_tod pix dets).weights,
      row.length = (assemble_tod pix dets).signal.length := by
  have hsig : (assemble_tod pix dets).signal.length =
      (dets.map (fun d => d.signal.length)).sum := flatten_length dets _
  refine ⟨?_, rfl, ?_⟩
  · rw [hsig, show (assemble_tod pix dets).pixels.length =
      (dets.map (fun d => ((d.theta.zip d.phi).map (fun a => pix a.1 a.2)).length)).sum
      from flatten_length dets _]
    congr 1
    refine List.map_congr_left (fun d hd => ?_)
    obtain ⟨hth, hph, _, _⟩ := h d hd
    simp [List.length_zip, hth, hph]
  · intro row hrow
    simp only [assemble_tod, List.mem_cons, List.not_mem_nil, or_false] at hrow
    rcases hrow with rfl | rfl | rfl
    · rw [hsig, flatten_length dets _]
      congr 1
      refine List.map_congr_left (fun d hd => ?_)
      obtain ⟨_, _, hq, _⟩ := h d hd
      simp [hq]
    · rw [hsig, flatten_length dets _]
      congr 1
      exact List.map_congr_left (fun d hd => (h d hd).2.2.1)
    · rw [hsig, flatten_length dets _]
      congr 1
      exact List.map_congr_left (fun d hd => (h d hd).2.2.2)

/-- C7 (witness): the 5-sample fixture is rectangular, and its assembled
TOD has matching signal and pixel counts and 3 weight rows. -/
theorem claim7_witness :
    (assemble_tod pix0 [det5]).signal.length =
      (assemble_tod pix0 [det5]).pixels.length ∧
    (assemble_tod pix0 [det5]).weights.length = 3 :=
  ⟨(claim7_theorem pix0 [det5] (fun d hd => by
      rw [List.mem_singleton] at hd
      subst hd
      exact ⟨rfl, rfl, rfl, rfl⟩)).1,
   (claim7_theorem pix0 [det5] (fun d hd => by
      rw [List.mem_singleton] at hd
      subst hd
      exact ⟨rfl, rfl, rfl, rfl⟩)).2.1⟩

/-- C8: for a single detector whose id has colour-correction factor `k` in
the calibration table, the colour-corrected assembly returns the plain
assembly with the signal scaled elementwise by `k` and the pixels and
weights unchanged. -/
theorem claim8_theorem (pix : ℚ → ℚ → ℤ) (table : List (ℕ × ℚ)) (i : ℕ)
    (d : DetectorData) (k : ℚ) (h : ccFactor table i = some k) :
    assemble_tod_withcc pix table [(i, d)] =
      some { signal := (assemble_tod pix [d]).signal.map (fun v => v * k)
             pixels := (assemble_tod pix [d]).pixels
             weights := (assemble_tod pix [d]).weights } := by
  unfold assemble_tod_withcc ccSignals ccSignals
  simp [h, assemble_tod]

/-- C8 (witness): on the 3-sample fixture with calibration table
`[(1, 2)]`, the colour-corrected signal is the plain signal scaled by 2,
with pixels and weights unchanged — the scenario of `test_tod_withcc`. -/
theorem claim8_witness :
    assemble_tod_withcc pix0 [(1, 2)] [(1, det3)] =
      some { signal := (assemble_tod pix0 [det3]).signal.map (fun v => v * 2)
             pixels := (assemble_tod pix0 [det3]).pixels
             weights := (assemble_tod pix0 [det3]).weights } :=
  claim8_theorem pix0 [(1, 2)] 1 det3 2 rfl

/-- C9 (counterexample): in grid mode with a split, the code inserts the
split between the pixel-count segment and `_grid`
(`100GHz_80pix_hm1_grid.fits`), whereas the claimed convention appends the
split at the end of the name (`100GHz_80pix_grid_hm1.fits`); the two names
differ. -/
theorem claim9_counterexample :
    gridMapname 100 80 (some "hm1") ≠ specMapname 100 80 "pix_grid" (some "hm1") := by
  decide

/-- C9 (amended): the healpix-mode filename follows the claimed convention
with the split appended at the end of the name, and the grid-mode filename
follows it without a split; with a split the grid-mode name instead
inserts the underscore-split segment between the pixel count and
`_grid`. -/
theorem claim9_theorem (freq npix nside : ℕ) (s : String) :
    healpixMapname freq nside none = specMapname freq nside "hpbinning" none ∧
    healpixMapname freq nside (some s) = specMapname freq nside "hpbinning" (some s) ∧
    gridMapname freq npix none = specMapname freq npix "pix_grid" none ∧
    gridMapname freq npix (some s) =
      toString freq ++ "GHz_" ++ toString npix ++ "pix_" ++ s ++ "_grid.fits" := by
  refine ⟨?_, ?_, ?_, rfl⟩
  · simp only [healpixMapname, specMapname]
    rw [String.append_assoc (toString freq ++ "GHz_" ++ toString nside)
      "hpbinning" ".fits"]
    rfl
  · simp only [healpixMapname, specMapname]
    rw [String.append_assoc (toString freq ++ "GHz_" ++ toString nside)
      "hpbinning" "_"]
    rfl
  · simp only [gridMapname, specMapname]
    rw [String.append_assoc (toString freq ++ "GHz_" ++ toString npix)
      "pix_grid" ".fits"]
    rfl

/-- C10: when `coord` is passed as `None` the substituted Tau-A default is
assigned only to the constructor's local variable: the stored attribute and
the value forwarded to the internally constructed TOD loader are still
`None`; likewise, with `bg_subtraction` enabled and `f_bg` passed as
`None`, the substituted per-instrument background-flux default is assigned
only to the local variable, and the attribute and the forwarded value are
still `None`. -/
theorem claim10_theorem (instrument coord_system : String)
    (coord f_bg : Option (List ℚ)) (bg : Bool) :
    ((mapMakerInit instrument none coord_system f_bg bg).self_coord = none ∧
      (mapMakerInit instrument none coord_system f_bg bg).loader_coord = none) ∧
    ((mapMakerInit instrument coord coord_system none true).self_f_bg = none ∧
      (mapMakerInit instrument coord coord_system none true).loader_f_bg = none) ∧
    (mapMakerInit instrument none "galactic" f_bg bg).local_coord =
      some tauAGalactic ∧
    (mapMakerInit "HFI" coord coord_system none true).local_f_bg =
      some hfiDefaultFbg := by
  refine ⟨⟨rfl, rfl⟩, ⟨rfl, rfl⟩, by simp [mapMakerInit], by simp [mapMakerInit]⟩

end Crabpol
